import Mathlib

set_option maxRecDepth 100000

/-!
Verification development for the bigcache repository: a shallow embedding of
src/queue/bytes_queue.go and src/bigcache.go, with theorems settling the
specification claims.

Conventions of the embedding:
* Byte arrays are modelled as `List Nat` (a Go byte is a `Nat` below 256).
* Go runtime crashes (out-of-range slicing, negative allocation size,
  division by zero) are modelled as `none` / a `crash` error value.
* Machine-integer truncation is explicit: `% 2^32` for a `uint32` store,
  `% 2^64` for `uint64` arithmetic.  Signed 64-bit quantities that can go
  negative in the Go code (the available-space computations, the filler
  length) are computed in `Int`.
* The clock collaborator is threaded as an explicit `now` argument and the
  hasher collaborator as a function field.
-/

/-- Little-endian byte encoding: the low `k` bytes of `n`. -/
def leBytes : Nat → Nat → List Nat
  | 0, _ => []
  | k + 1, n => n % 256 :: leBytes k (n / 256)

/-- Little-endian byte decoding, inverse of `leBytes` on byte lists. -/
def readLE (l : List Nat) : Nat :=
  l.foldr (fun b acc => b + 256 * acc) 0

/-- Semantics of the Go builtin `copy(arr[pos:], data)`: overwrite bytes of
`arr` starting at `pos`, truncating at the end of `arr`; the length of the
array is unchanged. -/
def writeAt (arr : List Nat) (pos : Nat) (data : List Nat) : List Nat :=
  arr.take pos ++ data.take (arr.length - pos)
    ++ arr.drop (pos + min data.length (arr.length - pos))

/-- Number of bytes actually transferred by `copy(arr[pos:], data)`. -/
def copyAmount (arr : List Nat) (pos : Nat) (data : List Nat) : Nat :=
  min data.length (arr.length - pos)

/-- Number of bytes used to keep information about entry size
(bytes_queue.go line 11). -/
def headerEntrySize : Nat := 4

/-- Bytes before the left margin are not used; a zero index means the element
does not exist in the queue (bytes_queue.go line 13). -/
def leftMarginIndex : Nat := 1

/-- Minimum empty blob size in bytes (bytes_queue.go line 16). -/
def minimumEmptyBlobSize : Nat := 32 + headerEntrySize

/-- Errors of queue operations.  `emptyQueue` and `invalidIndex` are the two
error values returned by the Go code; `crash` stands for a Go runtime fault
(out-of-range slice index or a negative allocation length). -/
inductive QueueErr where
  | emptyQueue
  | invalidIndex
  | crash
  deriving DecidableEq, Repr

/-- State of `BytesQueue` (bytes_queue.go lines 21-30).  The `headerBuffer`
and `verbose` fields are omitted: the header buffer is a scratch allocation
whose content is fully determined at each use, and `verbose` only controls
logging. -/
structure BytesQueue where
  array : List Nat
  capacity : Nat
  head : Nat
  tail : Nat
  count : Nat
  rightMargin : Nat
  deriving DecidableEq, Repr

/-- NewBytesQueue (bytes_queue.go lines 39-49). -/
def NewBytesQueue (initialCapacity : Nat) : BytesQueue :=
  { array := List.replicate initialCapacity 0
    capacity := initialCapacity
    head := leftMarginIndex
    tail := leftMarginIndex
    count := 0
    rightMargin := leftMarginIndex }

/-- Method `copy` (bytes_queue.go lines 109-111): `q.tail += copy(q.array[q.tail:], data)`.
Slicing `q.array[q.tail:]` faults when `tail` exceeds the array length. -/
def BytesQueue.copy (q : BytesQueue) (data : List Nat) : Option BytesQueue :=
  if q.tail ≤ q.array.length then
    some { q with array := writeAt q.array q.tail data
                  tail := q.tail + copyAmount q.array q.tail data }
  else none

/-- Method `push` (bytes_queue.go lines 96-107): write the 4-byte
little-endian header `uint32(len)`, then the data, then update the right
margin and the count. -/
def BytesQueue.push (q : BytesQueue) (data : List Nat) (len : Nat) : Option BytesQueue :=
  match q.copy (leBytes headerEntrySize len) with
  | none => none
  | some q1 =>
    match q1.copy (data.take len) with
    | none => none
    | some q2 =>
      let q3 := if q2.tail > q2.head then { q2 with rightMargin := q2.tail } else q2
      some { q3 with count := q3.count + 1 }

/-- Method `availableSpaceAfterTail` (bytes_queue.go lines 183-188), computed
in `Int` since the Go `int` result can be negative. -/
def BytesQueue.availableSpaceAfterTail (q : BytesQueue) : Int :=
  if q.tail ≥ q.head then (q.capacity : Int) - q.tail
  else (q.head : Int) - q.tail - minimumEmptyBlobSize

/-- Method `availableSpaceBeforeHead` (bytes_queue.go lines 190-195). -/
def BytesQueue.availableSpaceBeforeHead (q : BytesQueue) : Int :=
  if q.tail ≥ q.head then (q.head : Int) - leftMarginIndex - minimumEmptyBlobSize
  else (q.head : Int) - q.tail - minimumEmptyBlobSize

/-- Method `allocateAdditionalMemory` (bytes_queue.go lines 71-94).  The new
array is zero-initialized and the prefix up to the right margin is copied in
when the right margin is past the left margin; when the queue is wrapped a
synthetic filler entry of length `head - tail - 4` is pushed (Go faults when
that quantity is negative) and head and tail are linearized. -/
def BytesQueue.allocateAdditionalMemory (q : BytesQueue) (minimum : Nat) : Option BytesQueue :=
  let cap1 := if q.capacity < minimum then q.capacity + minimum else q.capacity
  let cap2 := cap1 * 2
  let qn : BytesQueue := { q with capacity := cap2, array := List.replicate cap2 0 }
  if leftMarginIndex ≠ q.rightMargin then
    if q.rightMargin ≤ q.array.length then
      let q1 : BytesQueue := { qn with array := writeAt qn.array 0 (q.array.take q.rightMargin) }
      if q.tail < q.head then
        if (q.head : Int) - q.tail - headerEntrySize < 0 then none
        else
          match q1.push (List.replicate (q.head - q.tail - headerEntrySize) 0)
              (q.head - q.tail - headerEntrySize) with
          | none => none
          | some q2 => some { q2 with head := leftMarginIndex, tail := q2.rightMargin }
      else some q1
    else none
  else some qn

/-- Method `Push` (bytes_queue.go lines 53-69): make room (wrap or grow) when
needed, record the handle, write the frame. -/
def BytesQueue.Push (q : BytesQueue) (data : List Nat) : Option (Nat × BytesQueue) :=
  let dataLen := data.length
  let q1opt :=
    if q.availableSpaceAfterTail < (dataLen : Int) + headerEntrySize then
      if q.availableSpaceBeforeHead ≥ (dataLen : Int) + headerEntrySize then
        some { q with tail := leftMarginIndex }
      else
        q.allocateAdditionalMemory dataLen
    else
      some q
  match q1opt with
  | none => none
  | some q1 =>
    match q1.push data dataLen with
    | none => none
    | some q2 => some (q1.tail, q2)

/-- Method `peek` (bytes_queue.go lines 178-181): read the 4-byte length
header at `index` and return the following slice; both slicing operations
fault when they reach past the end of the array. -/
def BytesQueue.peek (q : BytesQueue) (index : Nat) : Option (List Nat × Nat) :=
  if index + headerEntrySize ≤ q.array.length then
    let blockSize := readLE ((q.array.drop index).take headerEntrySize)
    if index + headerEntrySize + blockSize ≤ q.array.length then
      some ((q.array.drop (index + headerEntrySize)).take blockSize, blockSize)
    else none
  else none

/-- Method `Pop` (bytes_queue.go lines 114-133): advance the head past the
frame and decrement the count; when the head reaches the right margin, reset
the head (and, when the tail is also at the right margin, the tail) to the
left margin and move the right margin to the tail.  The cascade of updates
of the Go code is written here as one record update per branch. -/
def BytesQueue.Pop (q : BytesQueue) : Except QueueErr (List Nat × BytesQueue) :=
  if q.count = 0 then .error .emptyQueue
  else
    match q.peek q.head with
    | none => .error .crash
    | some (data, size) =>
      if q.head + headerEntrySize + size = q.rightMargin then
        if q.tail = q.rightMargin then
          .ok (data, { q with head := leftMarginIndex, tail := leftMarginIndex,
                              rightMargin := leftMarginIndex, count := q.count - 1 })
        else
          .ok (data, { q with head := leftMarginIndex, rightMargin := q.tail,
                              count := q.count - 1 })
      else
        .ok (data, { q with head := q.head + headerEntrySize + size,
                            count := q.count - 1 })

/-- Method `Peek` (bytes_queue.go lines 143-151). -/
def BytesQueue.Peek (q : BytesQueue) : Except QueueErr (List Nat) :=
  if q.count = 0 then .error .emptyQueue
  else
    match q.peek q.head with
    | none => .error .crash
    | some (data, _) => .ok data

/-- Method `Get` (bytes_queue.go lines 154-161); the index is a Go `int`. -/
def BytesQueue.Get (q : BytesQueue) (index : Int) : Except QueueErr (List Nat) :=
  if index ≤ 0 then .error .invalidIndex
  else
    match q.peek index.toNat with
    | none => .error .crash
    | some (data, _) => .ok data

/-- Method `Clear` (bytes_queue.go lines 135-140). -/
def BytesQueue.Clear (q : BytesQueue) : BytesQueue :=
  { q with head := leftMarginIndex
           tail := leftMarginIndex
           rightMargin := leftMarginIndex
           count := 0 }

/-- Method `Capacity` (bytes_queue.go lines 164-166). -/
def BytesQueue.Capacity (q : BytesQueue) : Nat := q.capacity

/-- Method `Len` (bytes_queue.go lines 169-171). -/
def BytesQueue.Len (q : BytesQueue) : Nat := q.count

/-!
Entry framing helpers.  The encoding file of the repository is not under
src/, so these are modelled from the spec (section 3 and section 4.2): a blob
is timestamp (8 bytes LE) + 64-bit key hash (8 bytes LE) + key length
(2 bytes LE) + key bytes + value bytes.  Reads that would reach past the end
of the blob are Go slice faults, modelled as `none`.
-/

/-- Modelled from the spec: size of the blob header fields preceding the key
(timestamp 8 + hash 8 + key length 2), used for buffer sizing. -/
def headersSizeInBytes : Nat := 18

/-- Modelled from the spec: `wrap(ts, hash, key, value)` serializes one entry
in the wire format of spec section 3.  The scratch-buffer plumbing is elided
since the function returns exactly the populated prefix. -/
def wrapEntry (timestamp hashedKey : Nat) (key value : List Nat) : List Nat :=
  leBytes 8 (timestamp % 2 ^ 64) ++ leBytes 8 (hashedKey % 2 ^ 64)
    ++ leBytes 2 (key.length % 2 ^ 16) ++ key ++ value

/-- Modelled from the spec: `read_timestamp` reads the first 8 bytes. -/
def readTimestampFromEntry (blob : List Nat) : Option Nat :=
  if 8 ≤ blob.length then some (readLE (blob.take 8)) else none

/-- Modelled from the spec: `read_hash` reads bytes 8..16. -/
def readHashFromEntry (blob : List Nat) : Option Nat :=
  if 16 ≤ blob.length then some (readLE ((blob.drop 8).take 8)) else none

/-- Modelled from the spec: `read_key` reads the 2-byte key length at offset
16 and then that many key bytes from offset 18. -/
def readKeyFromEntry (blob : List Nat) : Option (List Nat) :=
  if 18 ≤ blob.length then
    let keyLength := readLE ((blob.drop 16).take 2)
    if 18 + keyLength ≤ blob.length then some ((blob.drop 18).take keyLength)
    else none
  else none

/-- Modelled from the spec: `read_value` returns the remainder of the blob
after the key. -/
def readEntry (blob : List Nat) : Option (List Nat) :=
  if 18 ≤ blob.length then
    let keyLength := readLE ((blob.drop 16).take 2)
    if 18 + keyLength ≤ blob.length then some (blob.drop (18 + keyLength))
    else none
  else none

/-- Unsigned 64-bit subtraction `a - b`, as Go computes it on `uint64`. -/
def sub64 (a b : Nat) : Nat :=
  (a % 2 ^ 64 + (2 ^ 64 - b % 2 ^ 64)) % 2 ^ 64

/-!
The shard hash map `map[uint64]uint32` is modelled as an association list
with the Go map operations: lookup with zero as the missing-key default,
insert-or-replace, and delete.
-/

/-- Association-list lookup. -/
def lookupA (m : List (Nat × Nat)) (k : Nat) : Option Nat :=
  match m with
  | [] => none
  | (k', v) :: rest => if k' = k then some v else lookupA rest k

/-- Go map read `m[k]`: the zero value when the key is absent. -/
def mapGetD (m : List (Nat × Nat)) (k : Nat) : Nat :=
  (lookupA m k).getD 0

/-- Go map write `m[k] = v`: replace the binding or append a fresh one. -/
def insertA (m : List (Nat × Nat)) (k v : Nat) : List (Nat × Nat) :=
  match m with
  | [] => [(k, v)]
  | (k', v') :: rest => if k' = k then (k, v) :: rest else (k', v') :: insertA rest k v

/-- Go map `delete(m, k)`. -/
def eraseA (m : List (Nat × Nat)) (k : Nat) : List (Nat × Nat) :=
  m.filter (fun p => p.1 ≠ k)

/-- Errors of cache operations: `notFound` from bigcache.go, the queue errors
propagated by `Get`, and `crash` for a Go runtime fault. -/
inductive CacheErr where
  | notFound
  | emptyQueue
  | invalidIndex
  | crash
  deriving DecidableEq, Repr

/-- Lift a queue error into a cache error (bigcache.go line 90 propagates the
queue error value unchanged). -/
def liftQueueErr : QueueErr → CacheErr
  | .emptyQueue => .emptyQueue
  | .invalidIndex => .invalidIndex
  | .crash => .crash

/-- State of one `cacheShard` (bigcache.go lines 28-33).  The lock is
concurrency-only and `entryBuffer` is scratch space elided by the pure
`wrapEntry`. -/
structure cacheShard where
  hashmap : List (Nat × Nat)
  entries : BytesQueue
  deriving DecidableEq, Repr

/-- State of `BigCache` (bigcache.go lines 18-26).  The clock is threaded as
an explicit argument of `Set`, and of the config only the fields with
semantic effect are retained. -/
structure BigCache where
  shards : List cacheShard
  lifeWindow : Nat
  hash : List Nat → Nat
  shardMask : Nat
  shardSize : Nat

/-- Method `getShard` (bigcache.go lines 187-189), returning `none` where Go
would fault on an out-of-range shard index. -/
def BigCache.getShard (c : BigCache) (hashedKey : Nat) : Option cacheShard :=
  c.shards.get? (Nat.land hashedKey c.shardMask)

/-- Method `Get` (bigcache.go lines 76-99). -/
def BigCache.Get (c : BigCache) (key : List Nat) : Except CacheErr (List Nat) :=
  let hashedKey := c.hash key % 2 ^ 64
  match c.getShard hashedKey with
  | none => .error .crash
  | some shard =>
    let itemIndex := mapGetD shard.hashmap hashedKey
    if itemIndex = 0 then .error .notFound
    else
      match shard.entries.Get (itemIndex : Int) with
      | .error e => .error (liftQueueErr e)
      | .ok wrappedEntry =>
        match readKeyFromEntry wrappedEntry with
        | none => .error .crash
        | some entryKey =>
          if key ≠ entryKey then .error .notFound
          else
            match readEntry wrappedEntry with
            | none => .error .crash
            | some value => .ok value

/-- First step of `Set` (bigcache.go lines 110-114): when the key already has
an entry, zero the hash field of that previous blob in place in the arena.
`entries.Get` only returns an error for a non-positive index, so with a
non-zero `uint32` index the reset is always attempted; `resetKeyFromEntry`
(modelled from the spec: zero bytes 8..16 of the blob) faults when the blob
is shorter than 16 bytes, and the arena write lands at offset
`previousIndex + 4 + 8`. -/
def tombstonePrev (hashedKey : Nat) (s : cacheShard) : Option cacheShard :=
  if mapGetD s.hashmap hashedKey ≠ 0 then
    match s.entries.peek (mapGetD s.hashmap hashedKey) with
    | none => none
    | some (_, size) =>
      if 16 ≤ size then
        some { s with entries := { s.entries with
          array := writeAt s.entries.array (mapGetD s.hashmap hashedKey + headerEntrySize + 8)
                     (List.replicate 8 0) } }
      else none
  else some s

/-- Timestamp of the oldest entry as `Set` reads it: `Peek` then the first
8 bytes (bigcache.go line 116 and `onEvict` line 181). -/
def oldestTimestamp (s : cacheShard) : Option Nat :=
  match s.entries.Peek with
  | .error _ => none
  | .ok oldest => readTimestampFromEntry oldest

/-- Hash field of the oldest entry as the evict callback reads it
(bigcache.go line 119). -/
def oldestHash (s : cacheShard) : Option Nat :=
  match s.entries.Peek with
  | .error _ => none
  | .ok oldest => readHashFromEntry oldest

/-- Decision of `onEvict` (bigcache.go lines 180-185): the oldest entry is
evicted exactly when `currentTimestamp - oldestTimestamp > lifeWindow` in
`uint64` arithmetic.  False when the queue is empty. -/
def evictCond (lifeWindow now : Nat) (s : cacheShard) : Bool :=
  match oldestTimestamp s with
  | none => false
  | some ts => sub64 now ts > lifeWindow

/-- Second step of `Set` (bigcache.go lines 116-122): peek the oldest entry;
on a queue error do nothing; otherwise evict it when it is too old, popping
it and deleting its hash from the map.  A crash while peeking, reading the
timestamp of a too-short blob, or reading the hash of a too-short blob
during eviction is `none`. -/
def evictStep (lifeWindow now : Nat) (s : cacheShard) : Option cacheShard :=
  if s.entries.count = 0 then some s
  else
    match s.entries.peek s.entries.head with
    | none => none
    | some (oldestEntry, _) =>
      match readTimestampFromEntry oldestEntry with
      | none => none
      | some ts =>
        if sub64 now ts > lifeWindow then
          match s.entries.Pop with
          | .error _ => none
          | .ok (_, q') =>
            match readHashFromEntry oldestEntry with
            | none => none
            | some h => some { s with entries := q', hashmap := eraseA s.hashmap h }
        else some s

/-- Third step of `Set` (bigcache.go lines 124-126): wrap the entry, push it,
and store the handle, truncated to `uint32`, in the map. -/
def pushStep (hashedKey now : Nat) (key value : List Nat) (s : cacheShard) : Option cacheShard :=
  match s.entries.Push (wrapEntry now hashedKey key value) with
  | none => none
  | some (index, q') =>
    some { s with entries := q', hashmap := insertA s.hashmap hashedKey (index % 2 ^ 32) }

/-- Body of `Set` on the addressed shard (bigcache.go lines 102-127). -/
def shardSet (lifeWindow hashedKey : Nat) (key value : List Nat) (now : Nat)
    (s : cacheShard) : Option cacheShard :=
  match tombstonePrev hashedKey s with
  | none => none
  | some s1 =>
    match evictStep lifeWindow now s1 with
    | none => none
    | some s2 => pushStep hashedKey now key value s2

/-- Method `Set` (bigcache.go lines 102-127) with the clock reading passed in
as `now`. -/
def BigCache.Set (c : BigCache) (now : Nat) (key value : List Nat) : Option BigCache :=
  let hashedKey := c.hash key % 2 ^ 64
  let i := Nat.land hashedKey c.shardMask
  match c.shards.get? i with
  | none => none
  | some shard =>
    match shardSet c.lifeWindow hashedKey key value (now % 2 ^ 64) shard with
    | none => none
    | some shard' => some { c with shards := c.shards.set i shard' }

/-- Method `Clear` (bigcache.go lines 130-137): per shard, clear the queue
and reinitialize the map. -/
def BigCache.Clear (c : BigCache) : BigCache :=
  { c with shards := c.shards.map (fun s => { s with entries := s.entries.Clear, hashmap := [] }) }

/-- Method `Size` (bigcache.go lines 154-161): sum of per-shard map sizes. -/
def BigCache.Size (c : BigCache) : Nat :=
  (c.shards.map (fun s => s.hashmap.length)).sum

/-- Configuration (the fields of config.go with semantic effect; the shard
count is a Go `int` and may be zero or negative, the sizing fields are kept
non-negative since negative values only reach Go allocation faults that are
orthogonal to the claims). -/
structure Config where
  Shards : Int
  LifeWindow : Nat
  MaxEntriesInWindow : Nat
  MaxEntrySize : Nat

/-- Two's-complement 64-bit pattern of a Go `int` value. -/
def tc64 (x : Int) : Nat := (x % (2 ^ 64 : Int)).toNat

/-- Function `isPowerOfTwo` (bigcache.go lines 71-73): `number & (number-1) == 0`
over 64-bit two's-complement integers. -/
def isPowerOfTwo (number : Int) : Bool :=
  (tc64 number &&& tc64 (number - 1)) == 0

/-- Constant `minimumEntriesInShard` (bigcache.go line 12). -/
def minimumEntriesInShard : Nat := 10

/-- Outcome of construction: the config error, a crash, or a cache. -/
inductive NewResult where
  | invalidConfig
  | crash
  | ok (c : BigCache)

/-- Function `newBigCache` (bigcache.go lines 40-69), with the hasher passed
explicitly in place of `config.Hasher`.  A non-power-of-two shard count is
rejected; a shard count of zero passes the check and then faults on the
division `config.MaxEntriesInWindow / config.Shards`; a negative shard count
that passes the check (only the most negative `int64`) faults allocating the
shard slice. -/
def newBigCache (config : Config) (hasher : List Nat → Nat) : NewResult :=
  if ¬ isPowerOfTwo config.Shards then .invalidConfig
  else if config.Shards ≤ 0 then .crash
  else
    let n := config.Shards.toNat
    let shardSize := max (config.MaxEntriesInWindow / n) minimumEntriesInShard
    .ok
      { shards := List.replicate n
          { hashmap := [], entries := NewBytesQueue (shardSize * config.MaxEntrySize) }
        lifeWindow := config.LifeWindow
        hash := hasher
        shardMask := tc64 (config.Shards - 1)
        shardSize := shardSize }

/-- Projection of a construction outcome. -/
def NewResult.isInvalidConfig : NewResult → Bool
  | .invalidConfig => true
  | _ => false

/-- Projection of a construction outcome. -/
def NewResult.isCrash : NewResult → Bool
  | .crash => true
  | _ => false

/-- Projection of a construction outcome. -/
def NewResult.isOk : NewResult → Bool
  | .ok _ => true
  | _ => false

/-- Projection of a construction outcome. -/
def NewResult.getCache : NewResult → Option BigCache
  | .ok c => some c
  | _ => none

deriving instance DecidableEq for Except

/-- Queue states reachable from `NewBytesQueue` through the public mutating
operations.  A step only exists when the Go code returns normally (a crash
leaves no successor state). -/
inductive Reach : BytesQueue → Prop where
  | new (n : Nat) : Reach (NewBytesQueue n)
  | push {q : BytesQueue} {data : List Nat} {i : Nat} {q' : BytesQueue} :
      Reach q → q.Push data = some (i, q') → Reach q'
  | pop {q : BytesQueue} {d : List Nat} {q' : BytesQueue} :
      Reach q → q.Pop = Except.ok (d, q') → Reach q'
  | clear {q : BytesQueue} : Reach q → Reach q.Clear

/-- The margin invariant: head, tail and right margin never drop below the
left margin. -/
def marginInv (q : BytesQueue) : Prop :=
  leftMarginIndex ≤ q.head ∧ leftMarginIndex ≤ q.tail ∧ leftMarginIndex ≤ q.rightMargin

/-!
Concrete execution traces used to exhibit code-level divergences.  Every
state below is produced by the model itself; the literal intermediate states
for the reachability chains are checked against the step functions by
kernel evaluation.
-/

/-- Trace for claim C1: a capacity-13 queue, an 8-byte push, then a 13-byte
push that triggers `allocateAdditionalMemory`; the trace records the handle
of the second push together with the result of reading it back. -/
def c1Trace : Option (Nat × Except QueueErr (List Nat)) := do
  let (_, q1) ← (NewBytesQueue 13).Push (List.replicate 8 1)
  let (h2, q2) ← q1.Push (List.replicate 13 2)
  some (h2, q2.Get (h2 : Int))

/-- Trace for claim C3: the same two pushes followed by two pops; the trace
records the first popped blob and the outcome of the second pop. -/
def c3Trace : Option (List Nat × Except QueueErr (List Nat × BytesQueue)) := do
  let (_, q1) ← (NewBytesQueue 13).Push (List.replicate 8 1)
  let (_, q2) ← q1.Push (List.replicate 13 2)
  match q2.Pop with
  | .error _ => none
  | .ok (d1, q3) => some (d1, q3.Pop)

/-- States of the claim C8 trace: three pushes and three pops on a
capacity-13 queue.  The second push is the under-allocated one; the third
pop desynchronizes the head from the frame boundaries and leaves the queue
wrapped with a gap of one byte. -/
def c8q1 : BytesQueue :=
  { array := [0, 8, 0, 0, 0, 1, 1, 1, 1, 1, 1, 1, 1]
    capacity := 13, head := 1, tail := 13, count := 1, rightMargin := 13 }

/-- Second state of the claim C8 trace. -/
def c8q2 : BytesQueue :=
  { array := [0, 8, 0, 0, 0, 1, 1, 1, 1, 1, 1, 1, 1, 13, 0, 0, 0, 2, 2, 2, 2, 2, 2, 2, 2, 2]
    capacity := 26, head := 1, tail := 26, count := 2, rightMargin := 26 }

/-- Array shared by the later states of the claim C8 trace. -/
def c8arr : List Nat :=
  [0, 8, 0, 0, 0, 1, 1, 1, 1, 1, 1, 1, 1, 13, 0, 0, 0, 2, 2, 2, 2, 2, 2, 2, 2, 2,
   5, 0, 0, 0, 2, 0, 0, 0, 9] ++ List.replicate 17 0

/-- Third state of the claim C8 trace. -/
def c8q3 : BytesQueue :=
  { array := c8arr, capacity := 52, head := 1, tail := 35, count := 3, rightMargin := 35 }

/-- Fourth state of the claim C8 trace. -/
def c8q4 : BytesQueue :=
  { array := c8arr, capacity := 52, head := 13, tail := 35, count := 2, rightMargin := 35 }

/-- Fifth state of the claim C8 trace. -/
def c8q5 : BytesQueue :=
  { array := c8arr, capacity := 52, head := 30, tail := 35, count := 1, rightMargin := 35 }

/-- Final state of the claim C8 trace: wrapped with `head - tail = 1`. -/
def c8q6 : BytesQueue :=
  { array := c8arr, capacity := 52, head := 36, tail := 35, count := 0, rightMargin := 35 }

/-- Hasher used by the cache traces: the first byte of the key (an injective
hasher on the single-byte keys used below). -/
def byteHasher : List Nat → Nat := fun k => k.headD 0

/-- Trace for claim C2: one shard, life window 100, arena capacity 10; three
sets of distinct single-byte keys whose blob sizes (19, 30, 58) drive the
arena to the exact state where the third push is under-allocated and its
frame is written truncated. -/
def c2Cache : Option BigCache := do
  let c0 ← (newBigCache { Shards := 1, LifeWindow := 100, MaxEntriesInWindow := 10,
                          MaxEntrySize := 1 } byteHasher).getCache
  let c1 ← c0.Set 0 [1] []
  let c2 ← c1.Set 0 [2] (List.replicate 11 7)
  c2.Set 0 [3] (List.replicate 39 8)

/-- Hasher for the claim C4 trace: key `[97]` hashes to zero, key `[98]` to 7. -/
def c4Hasher : List Nat → Nat := fun k => if k = [97] then 0 else 7

/-- Trace for claim C4, first part: set key `[97]` (hash 0) twice, so the
queue holds a zero-hash tombstone followed by the live entry of `[97]`, and
the map binds hash 0 to the live entry. -/
def c4Cache2 : Option BigCache := do
  let c0 ← (newBigCache { Shards := 1, LifeWindow := 1, MaxEntriesInWindow := 1,
                          MaxEntrySize := 1 } c4Hasher).getCache
  let c1 ← c0.Set 0 [97] [1]
  c1.Set 0 [97] [2]

/-- Trace for claim C4, second part: a later set evicts the zero-hash
tombstone and its map delete removes the live binding of hash 0. -/
def c4Cache3 : Option BigCache := do
  let c2 ← c4Cache2
  c2.Set 5 [98] [3]

/-- Trace for claim C10: one shard, life window 0, arena capacity 10.  The
third set writes a truncated frame; sets four to six evict through it,
desynchronizing the head, and the seventh set pops a garbage frame whose
hash field matches nothing in the map, leaving four map entries against a
queue count of three. -/
def c10Cache : Option BigCache := do
  let c0 ← (newBigCache { Shards := 1, LifeWindow := 0, MaxEntriesInWindow := 1,
                          MaxEntrySize := 1 } byteHasher).getCache
  let c1 ← c0.Set 1 [1] []
  let c2 ← c1.Set 1 [2] (List.replicate 11 7)
  let c3 ← c2.Set 1 [3] (List.replicate 39 8)
  let c4 ← c3.Set 16 [4] [9]
  let c5 ← c4.Set 17 [5] [10]
  let c6 ← c5.Set 18 [6] [11]
  c6.Set 19 [7] [12]

/-- Full description of the effect of one `Set` on a shard, used as the
conclusion of the claim C4 theorem: the body decomposes into the tombstone
step (which only rewrites the arena), the eviction step (which pops the
oldest entry and deletes its hash from the map exactly when the age check
passes), and the push step (which inserts the new handle); the final clause
is the zero-hash no-op property, amended with the hypothesis that the map
has no binding for hash 0. -/
def SetSpec (lifeWindow hashedKey now : Nat) (key value : List Nat)
    (s s' : cacheShard) : Prop :=
  ∃ s1 s2,
    tombstonePrev hashedKey s = some s1 ∧
    evictStep lifeWindow now s1 = some s2 ∧
    pushStep hashedKey now key value s2 = some s' ∧
    s1.hashmap = s.hashmap ∧
    s1.entries.count = s.entries.count ∧
    s1.entries.head = s.entries.head ∧
    (evictCond lifeWindow now s1 = true →
      ∃ d q' g, s1.entries.Pop = Except.ok (d, q') ∧ oldestHash s1 = some g ∧
        s2.entries = q' ∧ s2.hashmap = eraseA s1.hashmap g ∧
        s2.entries.count + 1 = s1.entries.count) ∧
    (evictCond lifeWindow now s1 = false → s2 = s1) ∧
    (∃ idx, s'.hashmap = insertA s2.hashmap hashedKey idx) ∧
    s2.entries.count < s'.entries.count ∧
    (evictCond lifeWindow now s1 = true → oldestHash s1 = some 0 →
      lookupA s.hashmap 0 = none → s2.hashmap = s1.hashmap)

/-- Concrete shard used to instantiate the claim C4 theorem: one entry of
key `[1]`, hash 5, timestamp 0, stored at handle 1. -/
def c4W : cacheShard :=
  { hashmap := [(5, 1)]
    entries := { array := [0] ++ leBytes 4 20 ++ wrapEntry 0 5 [1] [2] ++ List.replicate 35 0
                 capacity := 60, head := 1, tail := 25, count := 1, rightMargin := 25 } }

/-- Result of `shardSet 1 9 [7] [8] 5 c4W`: the old entry is evicted and the
new entry of hash 9 occupies handle 1. -/
def c4Wres : cacheShard :=
  { hashmap := [(9, 1)]
    entries := { array := [0] ++ leBytes 4 20 ++ wrapEntry 5 9 [7] [8] ++ List.replicate 35 0
                 capacity := 60, head := 1, tail := 25, count := 1, rightMargin := 25 } }

/-- Concrete shard used to instantiate the claim C6 theorem: the arena holds
an entry whose embedded key is `[20]` under hash 5. -/
def c6Shard : cacheShard :=
  { hashmap := [(5, 1)]
    entries := { array := [0] ++ leBytes 4 20 ++ wrapEntry 0 5 [20] [2] ++ List.replicate 35 0
                 capacity := 60, head := 1, tail := 25, count := 1, rightMargin := 25 } }

/-- Concrete cache around `c6Shard`; its hasher sends every key to 5, so the
key `[10]` collides with the resident key `[20]`. -/
def c6Cache : BigCache :=
  { shards := [c6Shard], lifeWindow := 100, hash := fun _ => 5, shardMask := 0, shardSize := 10 }

/-!
Theorems.
-/

/-- C1 (code bug): handle stability fails as stated.  On a capacity-13 queue,
pushing 8 bytes and then 13 bytes makes `allocateAdditionalMemory` double the
capacity to 26, which leaves only 9 of the needed 17 bytes after the tail;
the frame of the second push is written truncated, and reading its handle 13
back is a Go slice fault (the header claims 13 bytes at offset 17 of a
26-byte buffer) instead of returning the pushed bytes. -/
theorem c1_get_of_returned_handle_crashes :
    c1Trace = some (13, Except.error QueueErr.crash) ∧
    c1Trace ≠ some (13, Except.ok (List.replicate 13 2)) := by
  constructor
  · rfl
  · intro h
    rw [show c1Trace = some (13, Except.error QueueErr.crash) from rfl] at h
    simp at h

/-- C3 (code bug): FIFO order fails as stated.  After the same two pushes as
in the C1 trace, the first pop returns the first blob but the second pop is a
Go slice fault on the truncated second frame, so the pop sequence is not the
push sequence. -/
theorem c3_second_pop_crashes :
    c3Trace = some (List.replicate 8 1, Except.error QueueErr.crash) := rfl

/-- C2 (code bug): the set/get round-trip fails as stated.  In the C2 trace
the third key is set, is never overwritten, is still bound in the map
(handle 58), has never been evicted (the queue head is still at the left
margin and the count is 3), and yet `Get` crashes on the truncated frame
instead of returning the stored value. -/
theorem c2_get_after_set_crashes :
    (c2Cache.map (fun c => c.Get [3])) = some (Except.error CacheErr.crash) ∧
    (c2Cache.bind (fun c => (c.shards.get? 0).map
      (fun s => (mapGetD s.hashmap 3, s.entries.count, s.entries.head)))) =
      some (58, 3, 1) := by
  exact ⟨rfl, rfl⟩

/-- Reachability of the final state of the claim C8 trace. -/
theorem c8q6_reach : Reach c8q6 :=
  Reach.pop
    (Reach.pop
      (Reach.pop
        (Reach.push
          (Reach.push
            (Reach.push (Reach.new 13)
              (show (NewBytesQueue 13).Push (List.replicate 8 1) = some (1, c8q1) by decide))
            (show c8q1.Push (List.replicate 13 2) = some (13, c8q2) by decide))
          (show c8q2.Push [2, 0, 0, 0, 9] = some (26, c8q3) by decide))
        (show c8q3.Pop = Except.ok (List.replicate 8 1, c8q4) by decide))
      (show c8q4.Pop =
          Except.ok ([2, 2, 2, 2, 2, 2, 2, 2, 2, 5, 0, 0, 0], c8q5) by decide))
    (show c8q5.Pop = Except.ok ([9, 0], c8q6) by decide)

/-- C8 (code bug): the wrap-gap invariant fails as stated.  The state `c8q6`
is reachable by three pushes and three pops, is wrapped with
`head - tail = 1 < 36`, and the next push crashes: its growth step computes
the filler length `head - tail - 4 = -3` and Go faults allocating a
negative-length slice. -/
theorem c8_wrapped_gap_below_minimum :
    Reach c8q6 ∧ c8q6.tail < c8q6.head ∧
    c8q6.head - c8q6.tail < minimumEmptyBlobSize ∧
    c8q6.Push [7] = none :=
  ⟨c8q6_reach, by decide, by decide, by decide⟩

/-- C10 (code bug): the map-size bound fails as stated.  At the end of the
C10 trace, reached from a fresh cache by seven `Set` operations, the single
shard has four map entries but a queue count of three: the seventh set pops
a desynchronized garbage frame whose hash field matches no map entry, so the
pop decrements the count while the map delete removes nothing. -/
theorem c10_map_larger_than_queue :
    (c10Cache.bind (fun c => (c.shards.get? 0).map
      (fun s => decide (s.hashmap.length ≤ s.entries.Len)))) = some false ∧
    (c10Cache.bind (fun c => (c.shards.get? 0).map
      (fun s => (s.hashmap.length, s.entries.Len)))) = some (4, 3) := by
  exact ⟨rfl, rfl⟩

/-- C6 (confirmed): whenever the blob stored under the requested key's hash
embeds a key different from the requested one, `Get` fails with not-found
and never returns the resident value (bigcache.go lines 92-97). -/
theorem c6_collision_not_found (c : BigCache) (key : List Nat) (shard : cacheShard)
    (idx : Nat) (blob entryKey : List Nat)
    (hs : c.getShard (c.hash key % 2 ^ 64) = some shard)
    (hidx : mapGetD shard.hashmap (c.hash key % 2 ^ 64) = idx)
    (hne : idx ≠ 0)
    (hblob : shard.entries.Get (idx : Int) = Except.ok blob)
    (hkey : readKeyFromEntry blob = some entryKey)
    (hdiff : key ≠ entryKey) :
    c.Get key = Except.error CacheErr.notFound := by
  simp only [BigCache.Get, hs, hidx]
  rw [if_neg hne, hblob]
  dsimp only
  rw [hkey]
  dsimp only
  rw [if_pos hdiff]

/-- Witness for C6: in `c6Cache` the key `[10]` hashes to 5, whose resident
blob embeds the key `[20]`, and `Get [10]` is not-found. -/
theorem c6_collision_not_found_witness :
    c6Cache.Get [10] = Except.error CacheErr.notFound :=
  c6_collision_not_found c6Cache [10] c6Shard 1 (wrapEntry 0 5 [20] [2]) [20]
    (by decide) (by decide) (by decide) (by decide) (by decide) (by decide)

/-- C7 (confirmed): after `Clear`, the size is zero, every key is not-found,
and every shard's queue has count zero with head, tail and right margin back
at the left margin while the backing buffer and the capacity are unchanged
(bigcache.go lines 130-137, bytes_queue.go lines 135-140). -/
theorem c7_clear_postcondition (c : BigCache) (h : c.shardMask < c.shards.length) :
    (c.Clear).Size = 0 ∧
    (∀ key, (c.Clear).Get key = Except.error CacheErr.notFound) ∧
    (∀ i s s', c.shards.get? i = some s → (c.Clear).shards.get? i = some s' →
      s'.entries.count = 0 ∧ s'.entries.head = leftMarginIndex ∧
      s'.entries.tail = leftMarginIndex ∧ s'.entries.rightMargin = leftMarginIndex ∧
      s'.entries.array = s.entries.array ∧ s'.entries.capacity = s.entries.capacity ∧
      s'.hashmap = []) := by
  refine ⟨?_, ?_, ?_⟩
  · simp only [BigCache.Clear, BigCache.Size, List.map_map, Function.comp]
    induction c.shards with
    | nil => rfl
    | cons a t ih => simpa using ih
  · intro key
    have hidx : Nat.land (c.hash key % 2 ^ 64) c.shardMask < c.shards.length :=
      lt_of_le_of_lt Nat.and_le_right h
    simp only [BigCache.Get, BigCache.getShard, BigCache.Clear, List.get?_map]
    cases hs : c.shards.get? (Nat.land (c.hash key % 2 ^ 64) c.shardMask) with
    | none => exact absurd (List.get?_eq_none.mp hs) (by omega)
    | some s => simp [mapGetD, lookupA]
  · intro i s s' h1 h2
    simp only [BigCache.Clear, List.get?_map, h1, Option.map_some'] at h2
    cases h2
    simp [BytesQueue.Clear]

/-- Witness for C7: the clear postcondition instantiated at `c6Cache`. -/
theorem c7_clear_postcondition_witness :
    (c6Cache.Clear).Size = 0 ∧
    (∀ key, (c6Cache.Clear).Get key = Except.error CacheErr.notFound) ∧
    (∀ i s s', c6Cache.shards.get? i = some s →
      (c6Cache.Clear).shards.get? i = some s' →
      s'.entries.count = 0 ∧ s'.entries.head = leftMarginIndex ∧
      s'.entries.tail = leftMarginIndex ∧ s'.entries.rightMargin = leftMarginIndex ∧
      s'.entries.array = s.entries.array ∧ s'.entries.capacity = s.entries.capacity ∧
      s'.hashmap = []) :=
  c7_clear_postcondition c6Cache (by decide)

/-- Frame facts about a successful `copy`: only the array and the tail
change, and the tail does not decrease. -/
theorem copy_some {q : BytesQueue} {d : List Nat} {q' : BytesQueue}
    (h : q.copy d = some q') :
    q'.head = q.head ∧ q'.rightMargin = q.rightMargin ∧ q'.count = q.count ∧
    q.tail ≤ q'.tail ∧ q'.capacity = q.capacity := by
  unfold BytesQueue.copy at h
  split at h
  · cases h
    exact ⟨rfl, rfl, rfl, Nat.le_add_right _ _, rfl⟩
  · cases h

/-- Frame facts about a successful inner `push`: the head is unchanged, the
count goes up by one, the tail does not decrease, and the right margin is
either unchanged or moved to the new tail. -/
theorem push_some {q : BytesQueue} {d : List Nat} {l : Nat} {q' : BytesQueue}
    (h : q.push d l = some q') :
    q'.head = q.head ∧ q'.count = q.count + 1 ∧ q.tail ≤ q'.tail ∧
    (q'.rightMargin = q.rightMargin ∨ q'.rightMargin = q'.tail) ∧
    q'.capacity = q.capacity := by
  unfold BytesQueue.push at h
  split at h
  · cases h
  · rename_i q1 h1
    split at h
    · cases h
    · rename_i q2 h2
      obtain ⟨a1, a2, a3, a4, a5⟩ := copy_some h1
      obtain ⟨b1, b2, b3, b4, b5⟩ := copy_some h2
      dsimp only at h
      split at h
      · cases h
        exact ⟨by rw [b1, a1], by rw [b3, a3], le_trans a4 b4, Or.inr rfl, by rw [b5, a5]⟩
      · cases h
        exact ⟨by rw [b1, a1], by rw [b3, a3], le_trans a4 b4,
          Or.inl (by rw [b2, a2]), by rw [b5, a5]⟩

/-- Facts about a successful growth: the count does not decrease and the
margin invariant is preserved. -/
theorem allocate_some {q : BytesQueue} {m : Nat} {q' : BytesQueue}
    (h : q.allocateAdditionalMemory m = some q') :
    q.count ≤ q'.count ∧ (marginInv q → marginInv q') := by
  unfold BytesQueue.allocateAdditionalMemory at h
  dsimp only at h
  split at h
  · split at h
    · split at h
      · split at h
        · cases h
        · split at h
          · cases h
          · rename_i q2 h3
            cases h
            obtain ⟨p1, p2, p3, p4, p5⟩ := push_some h3
            dsimp only at p1 p2 p3 p4
            constructor
            · dsimp only
              omega
            · intro ⟨m1, m2, m3⟩
              refine ⟨Nat.le_refl 1, ?_, ?_⟩
              · dsimp only
                rcases p4 with h4 | h4
                · rw [h4]; exact m3
                · rw [h4]; exact le_trans m2 p3
              · dsimp only
                rcases p4 with h4 | h4
                · rw [h4]; exact m3
                · rw [h4]; exact le_trans m2 p3
      · cases h
        exact ⟨Nat.le_refl _, fun hm => hm⟩
    · cases h
  · cases h
    exact ⟨Nat.le_refl _, fun hm => hm⟩

/-- Facts about a successful `Push`: the margin invariant is preserved, the
returned handle is at least the left margin, and the count grows. -/
theorem Push_some {q : BytesQueue} {data : List Nat} {i : Nat} {q' : BytesQueue}
    (h : q.Push data = some (i, q')) (hq : marginInv q) :
    marginInv q' ∧ leftMarginIndex ≤ i ∧ q.count < q'.count := by
  unfold BytesQueue.Push at h
  dsimp only at h
  obtain ⟨m1, m2, m3⟩ := hq
  have main : ∀ q1 : BytesQueue, marginInv q1 → q.count ≤ q1.count →
      (match q1.push data data.length with
        | none => none
        | some q2 => some (q1.tail, q2)) = some (i, q') →
      marginInv q' ∧ leftMarginIndex ≤ i ∧ q.count < q'.count := by
    intro q1 hm1 hc1 hh
    split at hh
    · cases hh
    · rename_i q2 h2
      cases hh
      obtain ⟨p1, p2, p3, p4, p5⟩ := push_some h2
      obtain ⟨n1, n2, n3⟩ := hm1
      refine ⟨⟨by rw [p1]; exact n1, le_trans n2 p3, ?_⟩, n2, by omega⟩
      rcases p4 with h4 | h4
      · rw [h4]; exact n3
      · rw [h4]; exact le_trans n2 p3
  split at h
  · cases h
  · rename_i q1 heq1
    split at heq1
    · split at heq1
      · cases heq1
        exact main { q with tail := leftMarginIndex } ⟨m1, Nat.le_refl _, m3⟩
          (Nat.le_refl _) h
      · obtain ⟨hc, hminv⟩ := allocate_some heq1
        exact main q1 (hminv ⟨m1, m2, m3⟩) hc h
    · cases heq1
      exact main q ⟨m1, m2, m3⟩ (Nat.le_refl _) h

/-- Facts about a successful `Pop`: the margin invariant is preserved and the
count goes down by exactly one. -/
theorem Pop_ok {q : BytesQueue} {d : List Nat} {q' : BytesQueue}
    (h : q.Pop = Except.ok (d, q')) (hq : marginInv q) :
    marginInv q' ∧ q'.count + 1 = q.count := by
  obtain ⟨m1, m2, m3⟩ := hq
  unfold BytesQueue.Pop at h
  split at h
  · cases h
  · rename_i hcount
    split at h
    · cases h
    · split at h
      · split at h
        · cases h
          exact ⟨⟨Nat.le_refl _, Nat.le_refl _, Nat.le_refl _⟩, by dsimp only; omega⟩
        · cases h
          exact ⟨⟨Nat.le_refl _, m2, m2⟩, by dsimp only; omega⟩
      · cases h
        exact ⟨⟨by dsimp only; omega, m2, m3⟩, by dsimp only; omega⟩

/-- States reachable through the public operations satisfy the margin
invariant. -/
theorem reach_marginInv {q : BytesQueue} (h : Reach q) : marginInv q := by
  induction h with
  | new n => exact ⟨Nat.le_refl _, Nat.le_refl _, Nat.le_refl _⟩
  | push _ hp ih => exact (Push_some hp ih).1
  | pop _ hp ih => exact (Pop_ok hp ih).1
  | clear _ _ => exact ⟨Nat.le_refl _, Nat.le_refl _, Nat.le_refl _⟩

/-- C9 (confirmed): on every reachable queue state, a successful `Push`
returns a handle at least the left margin 1, hence never 0
(bytes_queue.go lines 53-69 and line 13). -/
theorem c9_push_handle_positive (q : BytesQueue) (data : List Nat) (i : Nat)
    (q' : BytesQueue) (hr : Reach q) (hp : q.Push data = some (i, q')) :
    leftMarginIndex ≤ i ∧ i ≠ 0 := by
  have h := Push_some hp (reach_marginInv hr)
  refine ⟨h.2.1, ?_⟩
  have := h.2.1
  simp only [leftMarginIndex] at this
  omega

/-- Witness for C9: the first push on a fresh capacity-13 queue returns
handle 1. -/
theorem c9_push_handle_positive_witness : leftMarginIndex ≤ 1 ∧ (1 : Nat) ≠ 0 :=
  c9_push_handle_positive (NewBytesQueue 13) [5] 1
    { array := [0] ++ leBytes 4 1 ++ [5] ++ List.replicate 7 0
      capacity := 13, head := 1, tail := 6, count := 1, rightMargin := 6 }
    (Reach.new 13) (by decide)

/-- Count effect of a successful `Pop`. -/
theorem Pop_ok_count {q : BytesQueue} {d : List Nat} {q' : BytesQueue}
    (h : q.Pop = Except.ok (d, q')) : q'.count + 1 = q.count := by
  unfold BytesQueue.Pop at h
  split at h
  · cases h
  · rename_i hcount
    split at h
    · cases h
    · split at h
      · split at h
        · cases h; dsimp only; omega
        · cases h; dsimp only; omega
      · cases h; dsimp only; omega

/-- Count effect of a successful `Push`: at least one entry is added (two
when growth inserts a filler). -/
theorem Push_count {q : BytesQueue} {data : List Nat} {i : Nat} {q' : BytesQueue}
    (h : q.Push data = some (i, q')) : q.count < q'.count := by
  unfold BytesQueue.Push at h
  dsimp only at h
  split at h
  · cases h
  · rename_i q1 heq1
    have hc1 : q.count ≤ q1.count := by
      split at heq1
      · split at heq1
        · cases heq1; exact Nat.le_refl _
        · exact (allocate_some heq1).1
      · cases heq1; exact Nat.le_refl _
    split at h
    · cases h
    · rename_i q2 h2
      cases h
      have := (push_some h2).2.1
      omega

/-- The tombstone step of `Set` only rewrites arena bytes: the map, the
count and the head are unchanged. -/
theorem tombstonePrev_some {hk : Nat} {s s1 : cacheShard}
    (h : tombstonePrev hk s = some s1) :
    s1.hashmap = s.hashmap ∧ s1.entries.count = s.entries.count ∧
    s1.entries.head = s.entries.head := by
  unfold tombstonePrev at h
  split at h
  · split at h
    · cases h
    · split at h
      · cases h; exact ⟨rfl, rfl, rfl⟩
      · cases h
  · cases h; exact ⟨rfl, rfl, rfl⟩

/-- The eviction step of `Set` pops the oldest entry and deletes its hash
from the map exactly when the age check passes, and is the identity
otherwise. -/
theorem evictStep_some {lw now : Nat} {s1 s2 : cacheShard}
    (h : evictStep lw now s1 = some s2) :
    (evictCond lw now s1 = true →
      ∃ d q' g, s1.entries.Pop = Except.ok (d, q') ∧ oldestHash s1 = some g ∧
        s2.entries = q' ∧ s2.hashmap = eraseA s1.hashmap g ∧
        s2.entries.count + 1 = s1.entries.count) ∧
    (evictCond lw now s1 = false → s2 = s1) := by
  unfold evictStep at h
  split at h
  · rename_i hcount
    cases h
    have hec : evictCond lw now s1 = false := by
      unfold evictCond oldestTimestamp BytesQueue.Peek
      rw [if_pos hcount]
    exact ⟨fun hc => absurd hc (by rw [hec]; exact Bool.false_ne_true), fun _ => rfl⟩
  · rename_i hcount
    split at h
    · cases h
    · rename_i blob sz hpeek
      split at h
      · cases h
      · rename_i ts hts
        have hot : oldestTimestamp s1 = some ts := by
          unfold oldestTimestamp BytesQueue.Peek
          rw [if_neg hcount, hpeek]
          exact hts
        have hcond : evictCond lw now s1 = decide (sub64 now ts > lw) := by
          unfold evictCond
          rw [hot]
        split at h
        · rename_i hgt
          split at h
          · cases h
          · rename_i d q' hpop
            split at h
            · cases h
            · rename_i g hg
              cases h
              constructor
              · intro _
                refine ⟨d, q', g, hpop, ?_, rfl, rfl, ?_⟩
                · unfold oldestHash BytesQueue.Peek
                  rw [if_neg hcount, hpeek]
                  exact hg
                · exact Pop_ok_count hpop
              · intro hfalse
                rw [hcond, decide_eq_false_iff_not] at hfalse
                exact absurd hgt hfalse
        · rename_i hle
          cases h
          constructor
          · intro htrue
            rw [hcond, decide_eq_true_eq] at htrue
            exact absurd htrue hle
          · intro _
            rfl

/-- The push step of `Set` stores some handle for the key and strictly
increases the queue count. -/
theorem pushStep_some {hk now : Nat} {key value : List Nat} {s2 s' : cacheShard}
    (h : pushStep hk now key value s2 = some s') :
    (∃ idx, s'.hashmap = insertA s2.hashmap hk idx) ∧
    s2.entries.count < s'.entries.count := by
  unfold pushStep at h
  split at h
  · cases h
  · rename_i index q' hpush
    cases h
    exact ⟨⟨index % 2 ^ 32, rfl⟩, Push_count hpush⟩

/-- Deleting an absent key from the map is a no-op. -/
theorem eraseA_absent {m : List (Nat × Nat)} {k : Nat}
    (h : lookupA m k = none) : eraseA m k = m := by
  induction m with
  | nil => rfl
  | cons p rest ih =>
    obtain ⟨k', v⟩ := p
    unfold lookupA at h
    split at h
    · cases h
    · rename_i hne
      have ht : eraseA rest k = rest := ih h
      unfold eraseA at ht ⊢
      rw [List.filter_cons, if_pos (by simpa using hne), ht]

/-- C4 (corrected): the effect of one `Set` on its shard.  The body peeks
the oldest entry when the queue is non-empty and pops it, deleting its hash
from the map, exactly when the strict age check passes; at most one entry is
popped (the eviction step removes exactly one and the push step only adds);
and the zero-hash map delete is a no-op provided the map has no binding for
hash 0 — the amendment, since a live key hashing to 0 is deleted
(bigcache.go lines 102-127, 180-185). -/
theorem c4_set_eviction_spec (lifeWindow hashedKey now : Nat) (key value : List Nat)
    (s s' : cacheShard) (h : shardSet lifeWindow hashedKey key value now s = some s') :
    SetSpec lifeWindow hashedKey now key value s s' := by
  unfold shardSet at h
  split at h
  · cases h
  · rename_i s1 h1
    split at h
    · cases h
    · rename_i s2 h2
      obtain ⟨t1, t2, t3⟩ := tombstonePrev_some h1
      obtain ⟨e1, e2⟩ := evictStep_some h2
      obtain ⟨p1, p2⟩ := pushStep_some h
      refine ⟨s1, s2, h1, h2, h, t1, t2, t3, e1, e2, p1, p2, ?_⟩
      intro hc hg hlook
      obtain ⟨d, q', g, _, hg', _, hmap, _⟩ := e1 hc
      have hg0 : g = 0 := Option.some.inj (hg'.symm.trans hg)
      rw [hmap, hg0]
      exact eraseA_absent (by rw [t1]; exact hlook)

/-- Witness for C4: the spec instantiated on the concrete shard `c4W`. -/
theorem c4_set_eviction_spec_witness : SetSpec 1 9 5 [7] [8] c4W c4Wres :=
  c4_set_eviction_spec 1 9 5 [7] [8] c4W c4Wres (by decide)

/-- Counterexample for C4 as stated: in the C4 trace the key `[97]` hashes
to 0; after two sets of `[97]` the map binds hash 0 to the live entry at
handle 25 while the oldest queue entry is the zero-hash tombstone of the
first set.  The third set evicts that tombstone and its `delete(map, 0)` is
not a no-op: it removes the live binding, and `Get [97]` turns not-found
even though the live entry was never popped. -/
theorem c4_zero_hash_delete_not_noop :
    (c4Cache2.map (fun c => c.Get [97])) = some (Except.ok [2]) ∧
    (c4Cache2.bind (fun c => (c.shards.get? 0).map oldestHash)) = some (some 0) ∧
    (c4Cache2.bind (fun c => (c.shards.get? 0).map (fun s => evictCond 1 5 s))) =
      some true ∧
    (c4Cache2.bind (fun c => (c.shards.get? 0).map (fun s => lookupA s.hashmap 0))) =
      some (some 25) ∧
    (c4Cache3.bind (fun c => (c.shards.get? 0).map (fun s => lookupA s.hashmap 0))) =
      some none ∧
    (c4Cache3.map (fun c => c.Get [97])) = some (Except.error CacheErr.notFound) := by
  exact ⟨rfl, rfl, rfl, rfl, rfl, rfl⟩

/-- A power of two and its predecessor share no bits. -/
theorem pow_land_pred (k : Nat) : 2 ^ k &&& (2 ^ k - 1) = 0 := by
  apply Nat.eq_of_testBit_eq
  intro i
  rw [Nat.testBit_and, Nat.testBit_two_pow, Nat.testBit_two_pow_sub_one, Nat.zero_testBit]
  by_cases h : k = i
  · subst h; simp
  · simp [h]

/-- Bitwise conjunction is idempotent. -/
theorem land_self (a : Nat) : a &&& a = a :=
  Nat.eq_of_testBit_eq fun i => by rw [Nat.testBit_and, Bool.and_self]

/-- Bitwise conjunction of an even and an odd number, one bit down. -/
theorem land_even_odd (x y : Nat) : (2 * x) &&& (2 * y + 1) = 2 * (x &&& y) := by
  apply Nat.eq_of_testBit_eq
  intro i
  cases i with
  | zero =>
    simp [Nat.testBit_and, Nat.testBit_zero, Nat.mul_mod_right]
  | succ i =>
    have e1 : 2 * x / 2 = x := by omega
    have e2 : (2 * y + 1) / 2 = y := by omega
    have e3 : 2 * (x &&& y) / 2 = x &&& y := by omega
    rw [Nat.testBit_and, Nat.testBit_succ, Nat.testBit_succ, Nat.testBit_succ, e1, e2, e3]
    exact (Nat.testBit_and x y i).symm

/-- Bitwise conjunction of an odd and an even number, one bit down. -/
theorem land_odd_even (x y : Nat) : (2 * x + 1) &&& (2 * y) = 2 * (x &&& y) := by
  apply Nat.eq_of_testBit_eq
  intro i
  cases i with
  | zero =>
    simp [Nat.testBit_and, Nat.testBit_zero, Nat.mul_mod_right]
  | succ i =>
    have e1 : (2 * x + 1) / 2 = x := by omega
    have e2 : 2 * y / 2 = y := by omega
    have e3 : 2 * (x &&& y) / 2 = x &&& y := by omega
    rw [Nat.testBit_and, Nat.testBit_succ, Nat.testBit_succ, Nat.testBit_succ, e1, e2, e3]
    exact (Nat.testBit_and x y i).symm

/-- A positive number sharing no bits with its predecessor is a power of
two. -/
theorem land_pred_forward (m : Nat) : 0 < m → m &&& (m - 1) = 0 → ∃ k, m = 2 ^ k := by
  induction m using Nat.strong_induction_on with
  | _ m IH =>
    intro hm h
    rcases Nat.even_or_odd m with he | ho
    · obtain ⟨a, ha⟩ := he
      have ha2 : m = 2 * a := by omega
      have hapos : 0 < a := by omega
      have hrw : m - 1 = 2 * (a - 1) + 1 := by omega
      rw [hrw, ha2, land_even_odd] at h
      have h2 : a &&& (a - 1) = 0 := by omega
      obtain ⟨k, hk⟩ := IH a (by omega) hapos h2
      exact ⟨k + 1, by rw [ha2, hk, pow_succ]; ring⟩
    · obtain ⟨a, ha⟩ := ho
      by_cases ha0 : a = 0
      · exact ⟨0, by omega⟩
      · have hrw : m - 1 = 2 * a := by omega
        rw [hrw, ha, land_odd_even, land_self] at h
        exact absurd h (by omega)

/-- Two numbers with bit 63 set have a non-zero conjunction. -/
theorem land_ne_zero_high (a b : Nat) (ha1 : 2 ^ 63 ≤ a) (ha2 : a < 2 ^ 64)
    (hb1 : 2 ^ 63 ≤ b) (hb2 : b < 2 ^ 64) : a &&& b ≠ 0 := by
  intro h
  have hp : (2 : Nat) ^ 63 = 9223372036854775808 := by norm_num
  have hq : (2 : Nat) ^ 64 = 18446744073709551616 := by norm_num
  rw [hp] at ha1 hb1
  rw [hq] at ha2 hb2
  have hta : a.testBit 63 = true := by
    rw [Nat.testBit_to_div_mod, decide_eq_true_eq]
    have : a / 2 ^ 63 = 1 := by rw [hp]; omega
    rw [this]
  have htb : b.testBit 63 = true := by
    rw [Nat.testBit_to_div_mod, decide_eq_true_eq]
    have : b / 2 ^ 63 = 1 := by rw [hp]; omega
    rw [this]
  have hand := Nat.testBit_and a b 63
  rw [h, Nat.zero_testBit, hta, htb] at hand
  simp at hand

/-- The 64-bit pattern of a positive `int64` and of its predecessor. -/
theorem tc64_pos {n : Int} (h1 : 0 < n) (h2 : n < 2 ^ 63) :
    tc64 n = n.toNat ∧ tc64 (n - 1) = n.toNat - 1 := by
  unfold tc64
  have hq : (2 : Int) ^ 64 = 18446744073709551616 := by norm_num
  have h3 : (2 : Int) ^ 63 = 9223372036854775808 := by norm_num
  rw [hq]
  rw [h3] at h2
  omega

/-- The 64-bit pattern of a negative `int64` other than the minimum, and of
its predecessor: both have bit 63 set. -/
theorem tc64_neg {n : Int} (h1 : n < 0) (h2 : -(2 ^ 63) < n) :
    2 ^ 63 ≤ tc64 n ∧ tc64 n < 2 ^ 64 ∧ 2 ^ 63 ≤ tc64 (n - 1) ∧ tc64 (n - 1) < 2 ^ 64 := by
  unfold tc64
  have hq : (2 : Int) ^ 64 = 18446744073709551616 := by norm_num
  have h3 : (2 : Int) ^ 63 = 9223372036854775808 := by norm_num
  have hqn : (2 : Nat) ^ 64 = 18446744073709551616 := by norm_num
  have h3n : (2 : Nat) ^ 63 = 9223372036854775808 := by norm_num
  rw [hq, hqn, h3n]
  rw [h3] at h2
  omega

/-- Characterization of the Go power-of-two check over the `int64` range:
it accepts exactly the positive powers of two, zero, and the most negative
`int64`. -/
theorem isPowerOfTwo_iff (n : Int) (hlo : -(2 ^ 63) ≤ n) (hhi : n < 2 ^ 63) :
    isPowerOfTwo n = true ↔ (n = 0 ∨ n = -(2 ^ 63) ∨ ∃ k, k ≤ 62 ∧ n = 2 ^ k) := by
  unfold isPowerOfTwo
  rw [beq_iff_eq]
  rcases lt_trichotomy n 0 with hneg | hzero | hpos
  · by_cases hmin : n = -(2 ^ 63)
    · subst hmin
      have e1 : tc64 (-(2 ^ 63)) = 2 ^ 63 := by unfold tc64; decide
      have e2 : tc64 (-(2 ^ 63) - 1) = 2 ^ 63 - 1 := by unfold tc64; decide
      rw [e1, e2]
      exact ⟨fun _ => Or.inr (Or.inl rfl), fun _ => pow_land_pred 63⟩
    · obtain ⟨b1, b2, b3, b4⟩ := tc64_neg hneg (lt_of_le_of_ne hlo (fun hx => hmin hx.symm))
      constructor
      · intro h
        exact absurd h (land_ne_zero_high _ _ b1 b2 b3 b4)
      · rintro (h | h | ⟨k, _, hk⟩)
        · omega
        · exact absurd h hmin
        · have : (0 : Int) < 2 ^ k := pow_pos (by norm_num) k
          omega
  · subst hzero
    have e1 : tc64 0 = 0 := by unfold tc64; decide
    rw [e1, Nat.zero_and]
    exact ⟨fun _ => Or.inl rfl, fun _ => rfl⟩
  · obtain ⟨e1, e2⟩ := tc64_pos hpos hhi
    rw [e1, e2]
    have h3 : (2 : Int) ^ 63 = 9223372036854775808 := by norm_num
    constructor
    · intro h
      obtain ⟨k, hk⟩ := land_pred_forward n.toNat (by omega) h
      have hcast : ((2 ^ k : Nat) : Int) = 2 ^ k := by push_cast; ring
      have hk63 : k < 63 := by
        rw [← Nat.pow_lt_pow_iff_right (a := 2) (by norm_num)]
        have h3n : (2 : Nat) ^ 63 = 9223372036854775808 := by norm_num
        omega
      refine Or.inr (Or.inr ⟨k, by omega, by omega⟩)
    · rintro (h | h | ⟨k, hk62, hk⟩)
      · omega
      · have : (0 : Int) < 2 ^ 63 := pow_pos (by norm_num) 63
        omega
      · have hcast : ((2 ^ k : Nat) : Int) = 2 ^ k := by push_cast; ring
        have : n.toNat = 2 ^ k := by omega
        rw [this]
        exact pow_land_pred k

/-- Counterexample for C5 as stated: a shard count of zero is not a power
of two, yet construction does not return the configuration error — the
check `0 & (0-1) == 0` accepts zero and construction then crashes on the
division `MaxEntriesInWindow / Shards` (bigcache.go lines 42-44, 59, 71-73). -/
theorem c5_zero_shards_not_rejected :
    (newBigCache ⟨0, 1, 1, 1⟩ byteHasher).isInvalidConfig = false ∧
    (newBigCache ⟨0, 1, 1, 1⟩ byteHasher).isCrash = true ∧
    (∀ k : Nat, (0 : Int) ≠ 2 ^ k) := by
  refine ⟨rfl, rfl, ?_⟩
  intro k h
  have hpos : (0 : Int) < 2 ^ k := pow_pos (by norm_num) k
  omega

/-- C5 (corrected): over the whole `int64` range, construction returns the
invalid-configuration error exactly when the shard count is neither a
positive power of two, nor zero, nor the most negative `int64`; positive
powers of two construct successfully; zero and the most negative `int64`
crash (division by zero, negative slice length) instead of being rejected. -/
theorem c5_construction_rejects_iff (n : Int) (hlo : -(2 ^ 63) ≤ n) (hhi : n < 2 ^ 63)
    (lw mew mes : Nat) (hasher : List Nat → Nat) :
    ((newBigCache ⟨n, lw, mew, mes⟩ hasher).isInvalidConfig = true ↔
      ¬ (n = 0 ∨ n = -(2 ^ 63) ∨ ∃ k, k ≤ 62 ∧ n = 2 ^ k)) ∧
    ((∃ k, k ≤ 62 ∧ n = 2 ^ k) →
      (newBigCache ⟨n, lw, mew, mes⟩ hasher).isOk = true) ∧
    ((n = 0 ∨ n = -(2 ^ 63)) →
      (newBigCache ⟨n, lw, mew, mes⟩ hasher).isCrash = true) := by
  have hiff := isPowerOfTwo_iff n hlo hhi
  by_cases hp : isPowerOfTwo n = true
  · have hdis := hiff.mp hp
    refine ⟨?_, ?_, ?_⟩
    · simp only [newBigCache, hp]
      by_cases hle : n ≤ 0
      · rw [if_neg (by simp), if_pos hle]
        simp only [NewResult.isCrash, NewResult.isInvalidConfig]
        exact ⟨fun hfalse => absurd hfalse (Bool.false_ne_true), fun hc => absurd hdis hc⟩
      · rw [if_neg (by simp), if_neg hle]
        simp only [NewResult.isOk, NewResult.isInvalidConfig]
        exact ⟨fun hfalse => absurd hfalse (Bool.false_ne_true), fun hc => absurd hdis hc⟩
    · intro ⟨k, _, hk⟩
      have hkpos : (0 : Int) < 2 ^ k := pow_pos (by norm_num) k
      simp only [newBigCache, hp]
      rw [if_neg (by simp), if_neg (by omega)]
      rfl
    · intro hc
      simp only [newBigCache, hp]
      have h63 : (0 : Int) < 2 ^ 63 := pow_pos (by norm_num) 63
      rw [if_neg (by simp), if_pos (by omega)]
      rfl
  · have hb : isPowerOfTwo n = false := by
      cases hx : isPowerOfTwo n
      · rfl
      · exact absurd hx hp
    refine ⟨?_, ?_, ?_⟩
    · simp only [newBigCache, hb]
      rw [if_pos (by simp)]
      simp only [NewResult.isInvalidConfig]
      constructor
      · intro _ hdis
        exact hp (hiff.mpr hdis)
      · intro _
        trivial
    · intro ⟨k, hk62, hk⟩
      exact absurd (hiff.mpr (Or.inr (Or.inr ⟨k, hk62, hk⟩))) hp
    · intro hc
      rcases hc with h0 | hm
      · exact absurd (hiff.mpr (Or.inl h0)) hp
      · exact absurd (hiff.mpr (Or.inr (Or.inl hm))) hp

/-- Witness for C5: the characterization instantiated at a shard count of 4,
which is a power of two and constructs successfully. -/
theorem c5_construction_rejects_iff_witness :
    ((newBigCache ⟨4, 1, 1, 1⟩ byteHasher).isInvalidConfig = true ↔
      ¬ ((4 : Int) = 0 ∨ (4 : Int) = -(2 ^ 63) ∨ ∃ k, k ≤ 62 ∧ (4 : Int) = 2 ^ k)) ∧
    ((∃ k, k ≤ 62 ∧ (4 : Int) = 2 ^ k) →
      (newBigCache ⟨4, 1, 1, 1⟩ byteHasher).isOk = true) ∧
    (((4 : Int) = 0 ∨ (4 : Int) = -(2 ^ 63)) →
      (newBigCache ⟨4, 1, 1, 1⟩ byteHasher).isCrash = true) :=
  c5_construction_rejects_iff 4 (by norm_num) (by norm_num) 1 1 1 byteHasher


